import Mathlib

/-!
Verification of the code-execution engine and the code highlighter of the
presenterm repository (`src/execute.rs`, `src/render/highlighting.rs`),
as a shallow embedding in Lean.

External effects (temp-file I/O, process spawning, the child's output
stream) are modelled by explicit oracle records; the embedded functions
mirror the Rust control flow over those oracles.
-/

namespace Presenterm

/-- An abstract operating-system I/O error (the payload of `io::Error`).
Only its identity matters to the embedding. -/
structure IOError where
  code : Nat
deriving DecidableEq

/-- The language tag of a code block.  The variant list is taken from the
`match` in `CodeHighlighter::language_extension` (`highlighting.rs`); the
`Shell` variant carries the interpreter executable name. -/
inductive CodeLanguage where
  | Ada
  | Asp
  | Awk
  | Bash
  | BatchFile
  | C
  | CMake
  | CSharp
  | Clojure
  | Cpp
  | Crontab
  | Css
  | DLang
  | Docker
  | Dotenv
  | Elixir
  | Elm
  | Erlang
  | Go
  | Haskell
  | Html
  | Java
  | JavaScript
  | Json
  | Kotlin
  | Latex
  | Lua
  | Makefile
  | Markdown
  | OCaml
  | Perl
  | Php
  | Protobuf
  | Puppet
  | Python
  | R
  | Rust
  | Scala
  | Shell (interpreter : String)
  | Sql
  | Swift
  | Svelte
  | Terraform
  | TypeScript
  | Unknown
  | Vue
  | Xml
  | Yaml
  | Zig
deriving DecidableEq

/-- Modelled from the spec: `CodeLanguage::supports_execution` lives in
`markdown/elements.rs`, which is not part of the given sources.  The spec
says execution is supported by exactly one language family, the
shell-style interpreters ("most languages do not support it; exactly one
family, shell-style interpreters, does in the current scope"). -/
def CodeLanguage.supports_execution : CodeLanguage → Bool
  | .Shell _ => true
  | _ => false

/-- The flags of a code block (`CodeFlags` in `markdown/elements.rs`);
only the `execute` authorization bit is relevant here. -/
structure CodeFlags where
  execute : Bool
deriving DecidableEq

/-- A code block: raw contents, language tag, flags. -/
structure Code where
  contents : String
  language : CodeLanguage
  flags : CodeFlags
deriving DecidableEq

/-- `CodeExecuteError` from `execute.rs`. -/
inductive CodeExecuteError where
  | UnsupportedExecution
  | NotExecutableCode
  | TempFile (e : IOError)
  | SpawnProcess (e : IOError)
deriving DecidableEq

/-- Configuration of one standard stream of the spawned child
(`Stdio::null()` / `Stdio::piped()` in `execute.rs`). -/
inductive Stdio where
  | null
  | piped
deriving DecidableEq

/-- Observable side effects issued by `execute_shell`, in program order. -/
inductive Effect where
  | createTempFile
  | writeTempFile (contents : String)
  | flushTempFile
  | spawnProcess (program : String) (args : List String)
      (stdin : Stdio) (stdout : Stdio) (stderr : Stdio)
deriving DecidableEq

/-- The caller-facing handle returned on success.  In the embedding it
records the spawned child's identity and the temp file backing it; the
shared state observed through it is modelled separately by the
`ProcessReader` trace below. -/
structure ExecutionHandle where
  pid : Nat
  tempPath : String
deriving DecidableEq

/-- Oracle for the fallible environment steps of `execute_shell`:
the result of `NamedTempFile::new` (a path on success), of
`write_all`, of `flush`, and of `Command::spawn` (a pid on success). -/
structure ShellEnv where
  newTempFile : Except IOError String
  writeAll : Except IOError Unit
  flush : Except IOError Unit
  spawn : Except IOError Nat

/-- `CodeExecuter::execute_shell`: create a temp file, write the code to
it, flush, then spawn `/usr/bin/env interpreter path` with stdin null,
stdout piped, stderr null.  Returns the effect trace alongside the
result; an effect appears in the trace when the corresponding call is
issued, whether or not it succeeds. -/
def CodeExecuter.execute_shell (interpreter : String) (code : String) (env : ShellEnv) :
    List Effect × Except CodeExecuteError ExecutionHandle :=
  match env.newTempFile with
  | .error e => ([Effect.createTempFile], .error (.TempFile e))
  | .ok path =>
    match env.writeAll with
    | .error e => ([Effect.createTempFile, Effect.writeTempFile code], .error (.TempFile e))
    | .ok _ =>
      match env.flush with
      | .error e =>
        ([Effect.createTempFile, Effect.writeTempFile code, Effect.flushTempFile],
          .error (.TempFile e))
      | .ok _ =>
        match env.spawn with
        | .error e =>
          ([Effect.createTempFile, Effect.writeTempFile code, Effect.flushTempFile,
             Effect.spawnProcess "/usr/bin/env" [interpreter, path] .null .piped .null],
            .error (.SpawnProcess e))
        | .ok pid =>
          ([Effect.createTempFile, Effect.writeTempFile code, Effect.flushTempFile,
             Effect.spawnProcess "/usr/bin/env" [interpreter, path] .null .piped .null],
            .ok { pid := pid, tempPath := path })

/-- `CodeExecuter::execute`: validate executability (language capability
first, then the execute flag), then dispatch on the language. -/
def CodeExecuter.execute (code : Code) (env : ShellEnv) :
    List Effect × Except CodeExecuteError ExecutionHandle :=
  if !code.language.supports_execution then
    ([], .error .UnsupportedExecution)
  else if !code.flags.execute then
    ([], .error .NotExecutableCode)
  else
    match code.language with
    | .Shell interpreter => CodeExecuter.execute_shell interpreter code.contents env
    | _ => ([], .error .UnsupportedExecution)

/-- Whether an effect is a process spawn. -/
def Effect.isSpawn : Effect → Bool
  | .spawnProcess _ _ _ _ _ => true
  | _ => false

/-- `ProcessStatus` from `execute.rs`: `Running` is the `Default`. -/
inductive ProcessStatus where
  | Running
  | Success
  | Failure
deriving DecidableEq

/-- `ProcessStatus::is_finished`. -/
def ProcessStatus.is_finished : ProcessStatus → Bool
  | .Success => true
  | .Failure => true
  | .Running => false

/-- `ExecutionState` from `execute.rs`; its `Default` is empty output and
`Running`. -/
structure ExecutionState where
  output : List String
  status : ProcessStatus
deriving DecidableEq

/-- The default (initial) execution state. -/
def ExecutionState.initial : ExecutionState :=
  { output := [], status := .Running }

/-- One step of the child's buffered stdout line iterator
(`BufReader::lines`): either a decoded line (`Ok`) or a read/decode
error (`Err`). -/
inductive ReadEvent where
  | line (s : String)
  | readError
deriving DecidableEq

/-- The result of the single `Child::try_wait` call in
`ProcessReader::run`: `Err(_)`, `Ok(None)` (child not yet exited), or
`Ok(Some(status))` with `status.success()` as a boolean. -/
inductive TryWaitResult where
  | waitError
  | notExited
  | exited (success : Bool)
deriving DecidableEq

/-- `ProcessReader::process_output`, projected to the lines it appends:
lines are appended in order until the iterator ends or the first read
error, which aborts the loop (`let line = line?`). -/
def processOutput : List ReadEvent → List String
  | [] => []
  | .readError :: _ => []
  | .line s :: rest => s :: processOutput rest

/-- The successive values the shared state takes during
`process_output`, one per lock-protected append: `prev` is the output
already accumulated. -/
def appendStates (prev : List String) : List ReadEvent → List ExecutionState
  | [] => []
  | .readError :: _ => []
  | .line s :: rest =>
    { output := prev ++ [s], status := .Running } :: appendStates (prev ++ [s]) rest

/-- The terminal status computed in `ProcessReader::run`:
`success = matches!(try_wait(), Ok(Some(code)) if code.success())`,
then `Success` if `success` else `Failure`. -/
def runStatus : TryWaitResult → ProcessStatus
  | .exited true => .Success
  | .exited false => .Failure
  | .notExited => .Failure
  | .waitError => .Failure

/-- `ProcessReader::run`, as the trace of values of the shared
`ExecutionState`: the initial (default) state, then one state per
appended line, then the single final status write (which touches only
`status`, on whatever state the drain loop left behind). -/
def ProcessReader.runTrace (events : List ReadEvent) (w : TryWaitResult) :
    List ExecutionState :=
  (ExecutionState.initial :: appendStates [] events) ++
    [{ (ExecutionState.initial :: appendStates [] events).getLastD ExecutionState.initial with
       status := runStatus w }]

/-- `ExecutionHandle::state()` observed at instant `i` of the worker's
trace: a value copy of the shared state at that instant.  Because every
mutation happens under the lock, every snapshot a caller can obtain
equals some element of the trace. -/
def snapAt (events : List ReadEvent) (w : TryWaitResult) (i : Nat) : ExecutionState :=
  (ProcessReader.runTrace events w).getD i ExecutionState.initial

/-- Modelled from the spec: the terminal status the reader would compute
if, at EOF, it blocked until the child fully exited and used that exit
status ("block until the child process has fully exited and query its
exit status"); `eventualExit` is `some b` when the blocking wait would
report an exit with success bit `b`, `none` when even the blocking wait
could not retrieve a status. -/
def specBlockingStatus : Option Bool → ProcessStatus
  | some true => .Success
  | some false => .Failure
  | none => .Failure

/-- A concrete environment in which every step succeeds, used to
instantiate universally quantified theorems. -/
def envOk : ShellEnv :=
  { newTempFile := .ok "/tmp/file0", writeAll := .ok (), flush := .ok (),
    spawn := .ok 42 }

/-- The position after which syntect's `LinesWithEndings` iterator splits
off its next item: one past the first newline if any
(`input.find('\n').map(|i| i + 1)`), and the whole input otherwise
(`unwrap_or(input.len())`). -/
def lineSplitIdx (input : List Char) : Nat :=
  match input.findIdx? (fun c => c = '\n') with
  | some i => i + 1
  | none => input.length

/-- Model of syntect's `LinesWithEndings` iterator, which `highlight`
folds over: repeatedly split the input just after the first newline
(`split_at(split)`), keeping line endings; the final piece has no
trailing newline when the input does not end with one; empty input
yields no lines. -/
def linesWithEndings (input : List Char) : List (List Char) :=
  if hne : input = [] then []
  else
    input.take (lineSplitIdx input) :: linesWithEndings (input.drop (lineSplitIdx input))
termination_by input.length
decreasing_by
  simp only [List.length_drop]
  have hpos : 0 < input.length := List.length_pos.mpr hne
  have hsplit : 0 < lineSplitIdx input := by
    unfold lineSplitIdx
    cases h : input.findIdx? (fun c => c = '\n') with
    | none => simpa [h] using hpos
    | some i => simp [h]
  omega

/-- `CodeLine` from `highlighting.rs`: the original line of code and its
formatted (escape-coded) rendering. -/
structure CodeLine where
  original : List Char
  formatted : List Char
deriving DecidableEq

/-- `CodeHighlighter::language_extension` from `highlighting.rs`. -/
def CodeHighlighter.language_extension : CodeLanguage → String
  | .Ada => "adb"
  | .Asp => "asa"
  | .Awk => "awk"
  | .Bash => "bash"
  | .BatchFile => "bat"
  | .C => "c"
  | .CMake => "cmake"
  | .CSharp => "cs"
  | .Clojure => "clj"
  | .Cpp => "cpp"
  | .Crontab => "crontab"
  | .Css => "css"
  | .DLang => "d"
  | .Docker => "Dockerfile"
  | .Dotenv => "env"
  | .Elixir => "ex"
  | .Elm => "elm"
  | .Erlang => "erl"
  | .Go => "go"
  | .Haskell => "hs"
  | .Html => "html"
  | .Java => "java"
  | .JavaScript => "js"
  | .Json => "json"
  | .Kotlin => "kt"
  | .Latex => "tex"
  | .Lua => "lua"
  | .Makefile => "make"
  | .Markdown => "md"
  | .OCaml => "ml"
  | .Perl => "pl"
  | .Php => "php"
  | .Protobuf => "proto"
  | .Puppet => "pp"
  | .Python => "py"
  | .R => "r"
  | .Rust => "rs"
  | .Scala => "scala"
  | .Shell _ => "sh"
  | .Sql => "sql"
  | .Swift => "swift"
  | .Svelte => "svelte"
  | .Terraform => "tf"
  | .TypeScript => "ts"
  | .Unknown => "txt"
  | .Vue => "vue"
  | .Xml => "xml"
  | .Yaml => "yaml"
  | .Zig => "zig"

/-- The per-line body of `CodeHighlighter::highlight`: each line is paired
with its formatted rendering.  `fmt` abstracts the external stateful
highlighter (`HighlightLines::highlight_line` followed by
`as_24_bit_terminal_escaped`); it receives the selected syntax extension,
the lines already fed to the highlighter (its accumulated parse state),
and the current line. -/
def highlightLoop (fmt : String → List (List Char) → List Char → List Char)
    (ext : String) (prev : List (List Char)) : List (List Char) → List CodeLine
  | [] => []
  | l :: ls =>
    { original := l, formatted := fmt ext prev l } :: highlightLoop fmt ext (prev ++ [l]) ls

/-- `CodeHighlighter::highlight`: select the syntax by the language's
extension, then walk `LinesWithEndings`, producing one `CodeLine` per
piece with `original` set to the piece itself. -/
def CodeHighlighter.highlight (fmt : String → List (List Char) → List Char → List Char)
    (code : List Char) (language : CodeLanguage) : List CodeLine :=
  highlightLoop fmt (CodeHighlighter.language_extension language) [] (linesWithEndings code)

lemma appendStates_eq : ∀ (events : List ReadEvent) (prev : List String),
    appendStates prev events =
      (List.range (processOutput events).length).map
        (fun i => { output := prev ++ (processOutput events).take (i + 1),
                    status := ProcessStatus.Running })
  | [], prev => by simp [appendStates, processOutput]
  | .readError :: _, prev => by simp [appendStates, processOutput]
  | .line s :: rest, prev => by
    simp only [appendStates, processOutput, appendStates_eq rest (prev ++ [s]),
      List.length_cons, List.range_succ_eq_map, List.map_cons, List.map_map]
    simp [Function.comp, List.take_succ_cons, List.append_assoc]

lemma runTrace_eq (events : List ReadEvent) (w : TryWaitResult) :
    ProcessReader.runTrace events w =
      (List.range ((processOutput events).length + 1)).map
        (fun i => { output := (processOutput events).take i,
                    status := ProcessStatus.Running })
      ++ [{ output := processOutput events, status := runStatus w }] := by
  unfold ProcessReader.runTrace
  rw [appendStates_eq]
  have hpre : ExecutionState.initial ::
      (List.range (processOutput events).length).map
        (fun i => { output := [] ++ (processOutput events).take (i + 1),
                    status := ProcessStatus.Running }) =
      (List.range ((processOutput events).length + 1)).map
        (fun i => ({ output := (processOutput events).take i,
                     status := ProcessStatus.Running } : ExecutionState)) := by
    rw [List.range_succ_eq_map, List.map_cons, List.map_map]
    simp [ExecutionState.initial, Function.comp]
  rw [hpre]
  have hlast :
      ((List.range ((processOutput events).length + 1)).map
        (fun i => ({ output := (processOutput events).take i,
                     status := ProcessStatus.Running } : ExecutionState))).getLastD
        ExecutionState.initial =
      { output := processOutput events, status := ProcessStatus.Running } := by
    rw [List.range_succ, List.map_append, List.map_cons, List.map_nil,
      List.getLastD_concat]
    simp
  rw [hlast]

lemma runTrace_length (events : List ReadEvent) (w : TryWaitResult) :
    (ProcessReader.runTrace events w).length = (processOutput events).length + 2 := by
  rw [runTrace_eq]
  simp

lemma snapAt_running (events : List ReadEvent) (w : TryWaitResult) (i : Nat)
    (h : i ≤ (processOutput events).length) :
    snapAt events w i =
      { output := (processOutput events).take i, status := ProcessStatus.Running } := by
  unfold snapAt
  rw [runTrace_eq]
  rw [List.getD_append _ _ _ _ (by simpa using Nat.lt_succ_of_le h)]
  rw [List.getD_eq_getElem _ _ (by simpa using Nat.lt_succ_of_le h)]
  simp

lemma snapAt_final (events : List ReadEvent) (w : TryWaitResult) :
    snapAt events w ((processOutput events).length + 1) =
      { output := processOutput events, status := runStatus w } := by
  unfold snapAt
  rw [runTrace_eq]
  rw [List.getD_append_right _ _ _ _ (by simp)]
  simp

lemma processOutput_error (pre : List String) (post : List ReadEvent) :
    processOutput (pre.map ReadEvent.line ++ ReadEvent.readError :: post) = pre := by
  induction pre with
  | nil => simp [processOutput]
  | cons s rest ih => simp [processOutput, ih]

lemma processOutput_lines (pre : List String) :
    processOutput (pre.map ReadEvent.line) = pre := by
  induction pre with
  | nil => simp [processOutput]
  | cons s rest ih => simp [processOutput, ih]

lemma lineSplitIdx_pos (input : List Char) (h : input ≠ []) :
    0 < lineSplitIdx input := by
  unfold lineSplitIdx
  cases hf : input.findIdx? (fun c => c = '\n') with
  | none => simpa using List.length_pos.mpr h
  | some i => simp

lemma drop_lineSplitIdx_shorter (input : List Char) (h : input ≠ []) :
    (input.drop (lineSplitIdx input)).length < input.length := by
  have hpos : 0 < input.length := List.length_pos.mpr h
  have hs := lineSplitIdx_pos input h
  simp only [List.length_drop]
  omega

lemma linesWithEndings_join (cs : List Char) :
    (linesWithEndings cs).flatten = cs := by
  generalize hn : cs.length = n
  induction n using Nat.strong_induction_on generalizing cs with
  | _ n ih =>
    subst hn
    unfold linesWithEndings
    split
    · rename_i h
      simp [h]
    · rename_i h
      rw [List.flatten_cons, ih _ (drop_lineSplitIdx_shorter cs h) _ rfl,
        List.take_append_drop]

lemma mem_linesWithEndings (cs l : List Char) (hl : l ∈ linesWithEndings cs) :
    l ≠ [] ∧ ∀ c ∈ l.dropLast, c ≠ '\n' := by
  generalize hn : cs.length = n
  induction n using Nat.strong_induction_on generalizing cs l with
  | _ n ih =>
    subst hn
    unfold linesWithEndings at hl
    split at hl
    · simp at hl
    · rename_i h
      rcases List.mem_cons.mp hl with rfl | hmem
      · have hpos : 0 < cs.length := List.length_pos.mpr h
        have hs := lineSplitIdx_pos cs h
        constructor
        · intro hcon
          have hcl := congrArg List.length hcon
          simp only [List.length_take, List.length_nil] at hcl
          omega
        · intro c hc
          cases hf : cs.findIdx? (fun c => c = '\n') with
          | none =>
            have hk : lineSplitIdx cs = cs.length := by
              unfold lineSplitIdx
              rw [hf]
            rw [hk, List.take_length] at hc
            have hfb := List.findIdx?_eq_none_iff.mp hf c (List.dropLast_subset cs hc)
            simpa using hfb
          | some i =>
            have hk : lineSplitIdx cs = i + 1 := by
              unfold lineSplitIdx
              rw [hf]
            obtain ⟨hi, hpi, hprev⟩ := List.findIdx?_eq_some_iff_getElem.mp hf
            have hlen : (cs.take (i + 1)).length = i + 1 := by
              simp only [List.length_take]
              omega
            rw [hk, List.dropLast_eq_take, hlen, Nat.add_sub_cancel, List.take_take] at hc
            rw [Nat.min_eq_left (Nat.le_succ i)] at hc
            obtain ⟨j, hj, rfl⟩ := List.mem_take_iff_getElem.mp hc
            have hji : j < i := Nat.lt_of_lt_of_le hj (Nat.min_le_left _ _)
            have hnj := hprev j hji
            simpa using hnj
      · exact ih _ (drop_lineSplitIdx_shorter cs h) _ _ hmem rfl

lemma highlightLoop_map_original (fmt : String → List (List Char) → List Char → List Char)
    (ext : String) :
    ∀ (ls : List (List Char)) (prev : List (List Char)),
      (highlightLoop fmt ext prev ls).map CodeLine.original = ls
  | [], _ => by simp [highlightLoop]
  | l :: ls, prev => by
    simp [highlightLoop, highlightLoop_map_original fmt ext ls (prev ++ [l])]

/-- C1 (counterexample): a code block in a language that does not support
execution, with `flags.execute = false`, is rejected with
`UnsupportedExecution`, not `NotExecutableCode`: the language capability
check precedes the flag check, so the claim "returns the NotExecutableCode
error regardless of the code block's language" fails for non-executable
languages. -/
theorem execute_flag_false_counterexample :
    (CodeExecuter.execute
        { contents := "", language := CodeLanguage.Rust,
          flags := { execute := false } } envOk).2 =
      Except.error CodeExecuteError.UnsupportedExecution ∧
    (CodeExecuter.execute
        { contents := "", language := CodeLanguage.Rust,
          flags := { execute := false } } envOk).2 ≠
      Except.error CodeExecuteError.NotExecutableCode := by
  refine ⟨rfl, ?_⟩
  intro hcon
  simp [CodeExecuter.execute, CodeLanguage.supports_execution] at hcon

/-- C1 (amended): for every code block whose language supports execution
and whose `flags.execute` is false, `execute` returns `NotExecutableCode`
and issues no effect at all (in particular it spawns no process). -/
theorem execute_flag_false_not_executable (code : Code) (env : ShellEnv)
    (hsupp : code.language.supports_execution = true)
    (hexec : code.flags.execute = false) :
    CodeExecuter.execute code env =
      ([], Except.error CodeExecuteError.NotExecutableCode) := by
  unfold CodeExecuter.execute
  rw [hsupp, hexec]
  simp

/-- Witness for the amended C1 theorem at a concrete shell block. -/
theorem execute_flag_false_not_executable_witness :
    CodeExecuter.execute
        { contents := "", language := CodeLanguage.Shell "sh",
          flags := { execute := false } } envOk =
      ([], Except.error CodeExecuteError.NotExecutableCode) :=
  execute_flag_false_not_executable _ envOk rfl rfl

/-- C2: for every code block whose language does not support execution,
`execute` returns `UnsupportedExecution` and issues no effect at all (in
particular it spawns no process), regardless of `flags.execute`. -/
theorem execute_unsupported_language (code : Code) (env : ShellEnv)
    (hsupp : code.language.supports_execution = false) :
    CodeExecuter.execute code env =
      ([], Except.error CodeExecuteError.UnsupportedExecution) := by
  unfold CodeExecuter.execute
  rw [hsupp]
  simp

/-- Witness for the C2 theorem at a concrete non-executable block with the
execute flag set. -/
theorem execute_unsupported_language_witness :
    CodeExecuter.execute
        { contents := "", language := CodeLanguage.Rust,
          flags := { execute := true } } envOk =
      ([], Except.error CodeExecuteError.UnsupportedExecution) :=
  execute_unsupported_language _ envOk rfl

/-- C3 (counterexample): `ProcessReader::run` does not block until the
child has exited; it makes a single non-blocking `try_wait` query.  For a
child that closes stdout and only afterwards exits successfully (the query
at EOF time reports "not yet exited", the blocking wait would report a
successful exit), the final trace status is `Failure`, while the claimed
behaviour (block until exit, then use the exit status) requires
`Success`. -/
theorem run_final_status_counterexample :
    (snapAt [] TryWaitResult.notExited
        ((processOutput []).length + 1)).status = ProcessStatus.Failure ∧
    specBlockingStatus (some true) = ProcessStatus.Success ∧
    ProcessStatus.Failure ≠ ProcessStatus.Success := by
  refine ⟨?_, rfl, by decide⟩
  rw [snapAt_final]
  rfl

/-- C3 (amended): once the output stream reaches EOF, the reader makes a
single non-blocking exit-status query (`try_wait`); the final status (the
last state of the trace) is `Success` exactly when that query reports an
already-exited child with a successful status, and `Failure` in every
other case (child not yet exited, wait error, or unsuccessful exit); the
status is never left `Running`. -/
theorem run_final_status (events : List ReadEvent) (w : TryWaitResult) :
    ((snapAt events w ((ProcessReader.runTrace events w).length - 1)).status =
        ProcessStatus.Success ↔ w = TryWaitResult.exited true) ∧
    (snapAt events w ((ProcessReader.runTrace events w).length - 1)).status ≠
      ProcessStatus.Running := by
  have hl : (ProcessReader.runTrace events w).length - 1 =
      (processOutput events).length + 1 := by
    rw [runTrace_length]
    omega
  rw [hl, snapAt_final]
  cases w with
  | exited b => cases b <;> simp [runStatus]
  | notExited => simp [runStatus]
  | waitError => simp [runStatus]

/-- Witness for the amended C3 theorem at a concrete input. -/
theorem run_final_status_witness :
    ((snapAt [ReadEvent.line "hi"] (TryWaitResult.exited true)
        ((ProcessReader.runTrace [ReadEvent.line "hi"]
          (TryWaitResult.exited true)).length - 1)).status =
        ProcessStatus.Success ↔
      TryWaitResult.exited true = TryWaitResult.exited true) ∧
    (snapAt [ReadEvent.line "hi"] (TryWaitResult.exited true)
        ((ProcessReader.runTrace [ReadEvent.line "hi"]
          (TryWaitResult.exited true)).length - 1)).status ≠
      ProcessStatus.Running :=
  run_final_status [ReadEvent.line "hi"] (TryWaitResult.exited true)

/-- C4: snapshot monotonicity and single, final status write.  For any two
observation instants i ≤ j inside the trace, the output at i is a prefix
of the output at j, and a terminal status at i forces the status at j to
be equal.  Every non-final trace state still has status `Running`, so the
terminal status is written at most once, and the final state's output
already equals the fully drained output, so the status write happens
strictly after the last output append. -/
theorem run_snapshot_monotonicity (events : List ReadEvent) (w : TryWaitResult) :
    (∀ i j, i ≤ j → j < (ProcessReader.runTrace events w).length →
      (snapAt events w i).output <+: (snapAt events w j).output ∧
      ((snapAt events w i).status.is_finished = true →
        (snapAt events w j).status = (snapAt events w i).status)) ∧
    (∀ i, i + 1 < (ProcessReader.runTrace events w).length →
      (snapAt events w i).status = ProcessStatus.Running) ∧
    (snapAt events w ((ProcessReader.runTrace events w).length - 1)).output =
      processOutput events := by
  refine ⟨?_, ?_, ?_⟩
  · intro i j hij hj
    rw [runTrace_length] at hj
    by_cases hjn : j ≤ (processOutput events).length
    · have hin : i ≤ (processOutput events).length := le_trans hij hjn
      rw [snapAt_running _ _ _ hin, snapAt_running _ _ _ hjn]
      constructor
      · have h1 : (processOutput events).take i =
            ((processOutput events).take j).take i := by
          rw [List.take_take, Nat.min_eq_left hij]
        rw [h1]
        exact List.take_prefix _ _
      · intro hfin
        simp [ProcessStatus.is_finished] at hfin
    · have hj1 : j = (processOutput events).length + 1 := by omega
      subst hj1
      by_cases hin : i ≤ (processOutput events).length
      · rw [snapAt_running _ _ _ hin, snapAt_final]
        constructor
        · exact List.take_prefix _ _
        · intro hfin
          simp [ProcessStatus.is_finished] at hfin
      · have hi1 : i = (processOutput events).length + 1 := by omega
        subst hi1
        rw [snapAt_final]
        exact ⟨List.prefix_refl _, fun _ => rfl⟩
  · intro i hi
    rw [runTrace_length] at hi
    rw [snapAt_running _ _ _ (by omega)]
  · have h21 : (ProcessReader.runTrace events w).length - 1 =
        (processOutput events).length + 1 := by
      rw [runTrace_length]
      omega
    rw [h21, snapAt_final]

/-- Witness for the C4 theorem at a concrete trace and pair of instants. -/
theorem run_snapshot_monotonicity_witness :
    (snapAt [ReadEvent.line "hello"] (TryWaitResult.exited true) 1).output <+:
      (snapAt [ReadEvent.line "hello"] (TryWaitResult.exited true) 2).output ∧
    ((snapAt [ReadEvent.line "hello"] (TryWaitResult.exited true) 1).status.is_finished = true →
      (snapAt [ReadEvent.line "hello"] (TryWaitResult.exited true) 2).status =
        (snapAt [ReadEvent.line "hello"] (TryWaitResult.exited true) 1).status) :=
  (run_snapshot_monotonicity [ReadEvent.line "hello"] (TryWaitResult.exited true)).1 1 2
    (by decide) (by rw [runTrace_length]; decide)

/-- C7: a decode error aborts the drain loop early: the whole trace is the
same as if the stream had ended at the error (later events are ignored),
the lines appended before the error are preserved unchanged in order, and
the terminal status is still computed from the exit-status query, not from
the read failure. -/
theorem run_read_error_best_effort (pre : List String) (post : List ReadEvent)
    (w : TryWaitResult) :
    ProcessReader.runTrace (pre.map ReadEvent.line ++ ReadEvent.readError :: post) w =
      ProcessReader.runTrace (pre.map ReadEvent.line ++ [ReadEvent.readError]) w ∧
    snapAt (pre.map ReadEvent.line ++ ReadEvent.readError :: post) w
        ((ProcessReader.runTrace
          (pre.map ReadEvent.line ++ ReadEvent.readError :: post) w).length - 1) =
      { output := pre, status := runStatus w } := by
  have h1 : processOutput (pre.map ReadEvent.line ++ ReadEvent.readError :: post) = pre :=
    processOutput_error pre post
  have h2 : processOutput (pre.map ReadEvent.line ++ [ReadEvent.readError]) = pre :=
    processOutput_error pre []
  constructor
  · rw [runTrace_eq, runTrace_eq, h1, h2]
  · have hl : (ProcessReader.runTrace
        (pre.map ReadEvent.line ++ ReadEvent.readError :: post) w).length - 1 =
        (processOutput (pre.map ReadEvent.line ++ ReadEvent.readError :: post)).length + 1 := by
      rw [runTrace_length]
      omega
    rw [hl, snapAt_final, h1]

/-- C8: observation is idempotent once the status is finished: if the
snapshot at instant i has a finished status, then the snapshot at any
later instant j inside the trace is identical (same output, same
status). -/
theorem state_idempotent_after_finish (events : List ReadEvent) (w : TryWaitResult)
    (i j : Nat) (hij : i ≤ j) (hj : j < (ProcessReader.runTrace events w).length)
    (hfin : (snapAt events w i).status.is_finished = true) :
    snapAt events w j = snapAt events w i := by
  rw [runTrace_length] at hj
  by_cases hin : i ≤ (processOutput events).length
  · rw [snapAt_running _ _ _ hin] at hfin
    simp [ProcessStatus.is_finished] at hfin
  · have hi1 : i = (processOutput events).length + 1 := by omega
    have hj1 : j = (processOutput events).length + 1 := by omega
    rw [hi1, hj1]

/-- Witness for the C8 theorem at a concrete finished snapshot. -/
theorem state_idempotent_after_finish_witness :
    snapAt [ReadEvent.line "a"] (TryWaitResult.exited false) 2 =
      snapAt [ReadEvent.line "a"] (TryWaitResult.exited false) 2 :=
  state_idempotent_after_finish [ReadEvent.line "a"] (TryWaitResult.exited false) 2 2
    (by decide) (by rw [runTrace_length]; decide) (by decide)

/-- C5: for a shell code block that passes validation (the execute flag is
set) and an environment in which every step succeeds, `execute` issues
exactly, in order: temp-file creation, a verbatim write of the block's
contents, a flush, and a spawn of the neutral launcher `/usr/bin/env` with
exactly two arguments — the interpreter name and the temp file's path —
with stdin null (closed), stdout piped, stderr null (discarded); the
returned handle is backed by that temp file. -/
theorem execute_shell_effects (contents interpreter path : String) (env : ShellEnv)
    (pid : Nat)
    (htmp : env.newTempFile = Except.ok path)
    (hw : env.writeAll = Except.ok ())
    (hf : env.flush = Except.ok ())
    (hs : env.spawn = Except.ok pid) :
    CodeExecuter.execute
        { contents := contents, language := CodeLanguage.Shell interpreter,
          flags := { execute := true } } env =
      ([Effect.createTempFile, Effect.writeTempFile contents, Effect.flushTempFile,
        Effect.spawnProcess "/usr/bin/env" [interpreter, path]
          Stdio.null Stdio.piped Stdio.null],
       Except.ok { pid := pid, tempPath := path }) := by
  unfold CodeExecuter.execute CodeExecuter.execute_shell
  simp [CodeLanguage.supports_execution, htmp, hw, hf, hs]

/-- Witness for the C5 theorem at a concrete block and environment. -/
theorem execute_shell_effects_witness :
    CodeExecuter.execute
        { contents := "echo hi", language := CodeLanguage.Shell "sh",
          flags := { execute := true } } envOk =
      ([Effect.createTempFile, Effect.writeTempFile "echo hi", Effect.flushTempFile,
        Effect.spawnProcess "/usr/bin/env" ["sh", "/tmp/file0"]
          Stdio.null Stdio.piped Stdio.null],
       Except.ok { pid := 42, tempPath := "/tmp/file0" }) :=
  execute_shell_effects "echo hi" "sh" "/tmp/file0" envOk 42 rfl rfl rfl rfl

/-- C6: error characterization of `execute` on a validated shell block:
the result is `TempFile e` exactly when creating, writing or flushing the
temp file fails with `e` (the earlier steps having succeeded);
`SpawnProcess e` exactly when the temp file was fully materialized and
spawning fails with `e`; and a handle is returned exactly when every step
succeeds — once spawning succeeds no error is surfaced through `execute`,
and the call returns without any further interaction with the child. -/
theorem execute_shell_error_characterization (contents interpreter : String)
    (env : ShellEnv) :
    (∀ e : IOError,
      (CodeExecuter.execute
          { contents := contents, language := CodeLanguage.Shell interpreter,
            flags := { execute := true } } env).2 =
        Except.error (CodeExecuteError.TempFile e) ↔
      (env.newTempFile = Except.error e ∨
       ((∃ p, env.newTempFile = Except.ok p) ∧ env.writeAll = Except.error e) ∨
       ((∃ p, env.newTempFile = Except.ok p) ∧ env.writeAll = Except.ok () ∧
         env.flush = Except.error e))) ∧
    (∀ e : IOError,
      (CodeExecuter.execute
          { contents := contents, language := CodeLanguage.Shell interpreter,
            flags := { execute := true } } env).2 =
        Except.error (CodeExecuteError.SpawnProcess e) ↔
      ((∃ p, env.newTempFile = Except.ok p) ∧ env.writeAll = Except.ok () ∧
        env.flush = Except.ok () ∧ env.spawn = Except.error e)) ∧
    ((∃ h, (CodeExecuter.execute
          { contents := contents, language := CodeLanguage.Shell interpreter,
            flags := { execute := true } } env).2 = Except.ok h) ↔
      ((∃ p, env.newTempFile = Except.ok p) ∧ env.writeAll = Except.ok () ∧
        env.flush = Except.ok () ∧ (∃ pid, env.spawn = Except.ok pid))) := by
  unfold CodeExecuter.execute CodeExecuter.execute_shell
  rcases h1 : env.newTempFile with e1 | p <;>
    rcases h2 : env.writeAll with e2 | u <;>
      rcases h3 : env.flush with e3 | v <;>
        rcases h4 : env.spawn with e4 | pid <;>
          simp [CodeLanguage.supports_execution, h1, h2, h3, h4]

/-- Witness for the C6 theorem at a concrete environment. -/
theorem execute_shell_error_characterization_witness :
    (∃ h, (CodeExecuter.execute
        { contents := "", language := CodeLanguage.Shell "sh",
          flags := { execute := true } } envOk).2 = Except.ok h) ↔
      ((∃ p, envOk.newTempFile = Except.ok p) ∧ envOk.writeAll = Except.ok () ∧
        envOk.flush = Except.ok () ∧ (∃ pid, envOk.spawn = Except.ok pid)) :=
  (execute_shell_error_characterization "" "sh" envOk).2.2

/-- C10: `highlight` returns exactly one `CodeLine` per line of the input
(split keeping line endings), the `original` field of each is exactly the
corresponding input piece including its terminator, concatenating the
`original` fields in order reproduces the input exactly, and each piece is
nonempty with no interior newline (a newline occurs only as a piece's last
character), for every language and every formatting oracle. -/
theorem highlight_originals (fmt : String → List (List Char) → List Char → List Char)
    (code : List Char) (language : CodeLanguage) :
    (CodeHighlighter.highlight fmt code language).map CodeLine.original =
      linesWithEndings code ∧
    ((CodeHighlighter.highlight fmt code language).map CodeLine.original).flatten =
      code ∧
    (∀ l ∈ (CodeHighlighter.highlight fmt code language).map CodeLine.original,
      l ≠ [] ∧ ∀ c ∈ l.dropLast, c ≠ '\n') := by
  have hmap : (CodeHighlighter.highlight fmt code language).map CodeLine.original =
      linesWithEndings code :=
    highlightLoop_map_original fmt _ (linesWithEndings code) []
  refine ⟨hmap, ?_, ?_⟩
  · rw [hmap, linesWithEndings_join]
  · rw [hmap]
    intro l hl
    exact mem_linesWithEndings code l hl

/-- Witness for the C10 theorem at a concrete two-line input. -/
theorem highlight_originals_witness :
    (CodeHighlighter.highlight (fun _ _ l => l) ("ab\ncd".toList)
        CodeLanguage.Rust).map CodeLine.original =
      linesWithEndings ("ab\ncd".toList) ∧
    ((CodeHighlighter.highlight (fun _ _ l => l) ("ab\ncd".toList)
        CodeLanguage.Rust).map CodeLine.original).flatten = "ab\ncd".toList ∧
    (∀ l ∈ (CodeHighlighter.highlight (fun _ _ l => l) ("ab\ncd".toList)
        CodeLanguage.Rust).map CodeLine.original,
      l ≠ [] ∧ ∀ c ∈ l.dropLast, c ≠ '\n') :=
  highlight_originals (fun _ _ l => l) ("ab\ncd".toList) CodeLanguage.Rust

end Presenterm
